import Mathlib

/-!
Verification of the `strfind` string-search function of `pyxllib`
(`pyxllib/debug/strlib.py`), a generalized multi-pattern substring search
with forward/backward direction, an occurrence index, and an overlap flag.

Strings are embedded as `List Char`; positions as `Int` (the code uses the
sentinel `-1` and Python's slice-style index adjustment, both of which need
signed arithmetic).
-/

/-- Characters of a string literal, for concrete test inputs. -/
def chars (s : String) : List Char := s.data

/-- All indices `i` with `full[i : i + |sub|] = sub`, in ascending order.
An occurrence must fit inside `full` (`i + |sub| ≤ |full|`); the empty
needle occurs at every index `0 ≤ i ≤ |full|`. -/
def matchPositions (full sub : List Char) : List Nat :=
  (List.range (full.length + 1)).filter
    (fun i => decide (i + sub.length ≤ full.length) &&
              decide ((full.drop i).take sub.length = sub))

/-- Python's adjustment of a (possibly negative) start bound for `str.find`:
a negative bound counts from the end of the string and is clamped at 0. -/
def clampStart (len : Nat) (start : Int) : Nat :=
  if start < 0 then ((len : Int) + start).toNat else start.toNat

/-- Python's adjustment of a (possibly negative) end bound for `str.rfind`:
a negative bound counts from the end, and any bound is clamped to `len`. -/
def clampEnd (len : Nat) (e : Int) : Nat :=
  if e < 0 then ((len : Int) + e).toNat else min e.toNat len

/-- Python `full.find(sub, start)`: smallest occurrence position at or after
the adjusted start bound, `-1` if there is none. -/
def pyFind (full sub : List Char) (start : Int) : Int :=
  match (matchPositions full sub).filter
      (fun i => decide (clampStart full.length start ≤ i)) with
  | [] => -1
  | i :: _ => (i : Int)

/-- Python `full.rfind(sub, 0, e)`: largest occurrence position whose match
ends at or before the adjusted end bound, `-1` if there is none. -/
def pyRfind (full sub : List Char) (e : Int) : Int :=
  match ((matchPositions full sub).filter
      (fun i => decide (i + sub.length ≤ clampEnd full.length e))).getLast? with
  | none => -1
  | some i => (i : Int)

/-- Helper `nonnegative_min_value` of `strfind`: minimum of the non-negative
entries, `-1` if there is none. -/
def nonnegative_min_value (arr : List Int) : Int :=
  match arr.filter (fun x => decide (0 ≤ x)) with
  | [] => -1
  | x :: xs => xs.foldl min x

/-- Helper `nonnegative_max_value` of `strfind`: maximum of the non-negative
entries, `-1` if there is none. -/
def nonnegative_max_value (arr : List Int) : Int :=
  match arr.filter (fun x => decide (0 ≤ x)) with
  | [] => -1
  | x :: xs => xs.foldl max x

/-- The forward loop of the single-needle branch of `strfind`:
`n` iterations of `p = fullstr.find(objstr, p + offset)`, returning `-1`
as soon as an iteration fails. -/
def findLoop (full obj : List Char) (off : Int) : Nat → Int → Int
  | 0, p => p
  | n + 1, p =>
    let q := pyFind full obj (p + off)
    if q = -1 then -1 else findLoop full obj off n q

/-- The backward loop of the single-needle branch of `strfind`:
`n` iterations of `p = fullstr.rfind(objstr, 0, p - offset)`, returning `-1`
as soon as an iteration fails. -/
def rfindLoop (full obj : List Char) (off : Int) : Nat → Int → Int
  | 0, p => p
  | n + 1, p =>
    let q := pyRfind full obj (p - off)
    if q = -1 then -1 else rfindLoop full obj off n q

/-- The single-needle branch of `strfind` (`objstr` a plain string),
including the default-`start` rule shared by both branches. -/
def strfindSingle (full obj : List Char) (start : Option Int) (times : Int)
    (overlap : Bool) : Int :=
  let st : Int := match start with
    | some s => s
    | none => if times < 0 then (full.length : Int) - 1 else 0
  let off : Int := if overlap then 1 else (obj.length : Int)
  if 0 ≤ times then findLoop full obj off (times + 1).toNat (st - off)
  else rfindLoop full obj off (-times).toNat (st + off + 1)

/-- The forward loop of the multi-needle branch of `strfind`: each iteration
runs the single-needle search (with `times=0`) for every needle from `p + 1`
and keeps the minimum non-negative result, returning `-1` as soon as an
iteration finds nothing. -/
def multiFindLoop (full : List Char) (objs : List (List Char))
    (overlap : Bool) : Nat → Int → Int
  | 0, p => p
  | n + 1, p =>
    let ls := objs.map (fun x => strfindSingle full x (some (p + 1)) 0 overlap)
    let q := nonnegative_min_value ls
    if q = -1 then -1 else multiFindLoop full objs overlap n q

/-- The backward loop of the multi-needle branch of `strfind`: each iteration
runs the single-needle search (with `times=-1`) for every needle from `p - 1`
and keeps the maximum non-negative result, returning `-1` as soon as an
iteration finds nothing. -/
def multiRfindLoop (full : List Char) (objs : List (List Char))
    (overlap : Bool) : Nat → Int → Int
  | 0, p => p
  | n + 1, p =>
    let ls := objs.map (fun x => strfindSingle full x (some (p - 1)) (-1) overlap)
    let q := nonnegative_max_value ls
    if q = -1 then -1 else multiRfindLoop full objs overlap n q

/-- The `objstr` argument of `strfind`: a single string, or a list/tuple of
strings. -/
inductive Needle where
  | single : List Char → Needle
  | multi : List (List Char) → Needle

/-- The needles carried by an `objstr` argument. -/
def needleStrings : Needle → List (List Char)
  | .single s => [s]
  | .multi l => l

/-- The `strfind` function of `pyxllib.debug.strlib`. `start = none` encodes
Python's `start=None`. -/
def strfind (fullstr : List Char) (objstr : Needle) (start : Option Int)
    (times : Int) (overlap : Bool) : Int :=
  match objstr with
  | .single s => strfindSingle fullstr s start times overlap
  | .multi objs =>
    let st : Int := match start with
      | some s => s
      | none => if times < 0 then (fullstr.length : Int) - 1 else 0
    if 0 ≤ times then multiFindLoop fullstr objs overlap (times + 1).toNat (st - 1)
    else multiRfindLoop fullstr objs overlap (-times).toNat (st + 1)

-- Sanity checks against the doctests in the source.
example : strfind (chars "aabbaabb") (.single (chars "bb")) none 0 false = 2 := by decide
example : strfind (chars "bbaaaabb") (.single (chars "bb")) none 0 false = 0 := by decide
example : strfind (chars "aabbaabb") (.single (chars "bb")) none 1 false = 6 := by decide
example : strfind (chars "aabbaabb") (.single (chars "cc")) none 0 false = -1 := by decide
example : strfind (chars "aabbaabb") (.multi [chars "aa", chars "bb"]) none 2 false = 4 := by decide
example : strfind (chars "aabbaabb") (.single (chars "bb")) (some 2) 0 false = 2 := by decide
example : strfind (chars "aabbaabb") (.single (chars "bb")) (some 3) 0 false = 6 := by decide
example : strfind (chars "aabbaabb") (.multi [chars "aa", chars "bb"]) (some 5) 0 false = 6 := by decide
example : strfind (chars "aabbaabb") (.single (chars "aa")) none (-1) false = 4 := by decide
example : strfind (chars "aabbaabb") (.single (chars "aa")) (some 5) (-1) false = 4 := by decide
example : strfind (chars "aabbaabb") (.single (chars "aa")) (some 3) (-1) false = 0 := by decide
example : strfind (chars "aabbaabb") (.single (chars "bb")) (some 7) (-1) false = 6 := by decide
example : strfind (chars "aaaa") (.single (chars "aa")) none 1 false = 2 := by decide
example : strfind (chars "aaaa") (.single (chars "aa")) none 1 true = 1 := by decide
example : strfind (chars "\\item=\\item+") (.multi [chars "\\item", chars "\\test"]) (some 1) 0 false = 6 := by decide

/-!
Specification-side definitions. These follow the spec's description of the
algorithm: each forward step finds the next occurrence from the current
cursor and advances the cursor past the match by `off` (1 when overlapping,
needle length otherwise); each backward step finds the nearest occurrence
ending at or before the cursor and retreats past the match by `off`.
-/

/-- Spec forward iteration: `specForward full obj off t s` is the
`(t+1)`-th forward occurrence of `obj` at or after `s`, each step starting
just past the prior match advanced by `off`; `-1` as soon as a step fails. -/
def specForward (full obj : List Char) (off : Int) : Nat → Int → Int
  | 0, c => pyFind full obj c
  | k + 1, c =>
    let p := pyFind full obj c
    if p = -1 then -1 else specForward full obj off k (p + off)

/-- Spec backward iteration: `specBackward full obj off t s` is the
`(t+1)`-th backward occurrence whose match lies entirely at or before
position `s`, each step starting just before the prior match retreated by
`off`; `-1` as soon as a step fails. -/
def specBackward (full obj : List Char) (off : Int) : Nat → Int → Int
  | 0, s => pyRfind full obj (s + 1)
  | k + 1, s =>
    let p := pyRfind full obj (s + 1)
    if p = -1 then -1 else specBackward full obj off k (p - off - 1)

lemma findLoop_eq_specForward (full obj : List Char) (off : Int) :
    ∀ (t : Nat) (s : Int),
      findLoop full obj off (t + 1) (s - off) = specForward full obj off t s := by
  intro t
  induction t with
  | zero =>
    intro s
    have hs : s - off + off = s := by ring
    simp only [findLoop, specForward, hs]
    by_cases h : pyFind full obj s = -1 <;> simp [findLoop, h]
  | succ k ih =>
    intro s
    have hs : s - off + off = s := by ring
    simp only [findLoop, specForward, hs]
    by_cases h : pyFind full obj s = -1
    · simp [h]
    · simp only [h, if_false]
      have h2 := ih (pyFind full obj s + off)
      have h3 : pyFind full obj s + off - off = pyFind full obj s := by ring
      rw [h3] at h2
      exact h2

lemma rfindLoop_eq_specBackward (full obj : List Char) (off : Int) :
    ∀ (t : Nat) (s : Int),
      rfindLoop full obj off (t + 1) (s + off + 1) = specBackward full obj off t s := by
  intro t
  induction t with
  | zero =>
    intro s
    have hs : s + off + 1 - off = s + 1 := by ring
    simp only [rfindLoop, specBackward, hs]
    by_cases h : pyRfind full obj (s + 1) = -1 <;> simp [rfindLoop, h]
  | succ k ih =>
    intro s
    have hs : s + off + 1 - off = s + 1 := by ring
    simp only [rfindLoop, specBackward, hs]
    by_cases h : pyRfind full obj (s + 1) = -1
    · simp [h]
    · simp only [h, if_false]
      have h2 := ih (pyRfind full obj (s + 1) - off - 1)
      have h3 : pyRfind full obj (s + 1) - off - 1 + off + 1 = pyRfind full obj (s + 1) := by
        ring
      rw [h3] at h2
      exact h2

lemma strfindSingle_eq_specForward (full obj : List Char) (s : Int) (t : Nat) (ov : Bool) :
    strfindSingle full obj (some s) (t : Int) ov =
      specForward full obj (if ov then 1 else (obj.length : Int)) t s := by
  have h0 : (0 : Int) ≤ (t : Int) := Int.ofNat_nonneg t
  have h1 : ((t : Int) + 1).toNat = t + 1 := by omega
  simp only [strfindSingle, if_pos h0, h1]
  exact findLoop_eq_specForward full obj _ t s

lemma strfindSingle_eq_specBackward (full obj : List Char) (s : Int) (t : Nat) (ov : Bool) :
    strfindSingle full obj (some s) (-((t : Int) + 1)) ov =
      specBackward full obj (if ov then 1 else (obj.length : Int)) t s := by
  have h0 : ¬ (0 : Int) ≤ -((t : Int) + 1) := by omega
  have h1 : (-(-((t : Int) + 1))).toNat = t + 1 := by omega
  simp only [strfindSingle, if_neg h0, h1]
  exact rfindLoop_eq_specBackward full obj _ t s

lemma strfindSingle_times_zero (full obj : List Char) (s : Int) (ov : Bool) :
    strfindSingle full obj (some s) 0 ov = pyFind full obj s := by
  have h := strfindSingle_eq_specForward full obj s 0 ov
  norm_num at h
  simpa [specForward] using h

lemma strfindSingle_neg_one (full obj : List Char) (s : Int) (ov : Bool) :
    strfindSingle full obj (some s) (-1) ov = pyRfind full obj (s + 1) := by
  have h := strfindSingle_eq_specBackward full obj s 0 ov
  norm_num at h
  simpa [specBackward] using h

/-- One forward step of the multi-needle search: the nearest (minimum
non-negative) next match over all needles from cursor `c`. -/
def stepForward (full : List Char) (objs : List (List Char)) (c : Int) : Int :=
  nonnegative_min_value (objs.map (fun x => pyFind full x c))

/-- One backward step of the multi-needle search: the nearest (maximum
non-negative) previous match over all needles, matches lying entirely at or
before cursor `c`. -/
def stepBackward (full : List Char) (objs : List (List Char)) (c : Int) : Int :=
  nonnegative_max_value (objs.map (fun x => pyRfind full x (c + 1)))

/-- Spec multi-needle forward iteration: `t+1` pick-nearest-then-advance
steps from cursor `c`, the cursor advancing by 1 past each picked match;
`-1` as soon as every needle fails in a step. -/
def specMultiForward (full : List Char) (objs : List (List Char)) :
    Nat → Int → Int
  | 0, c => stepForward full objs c
  | k + 1, c =>
    let p := stepForward full objs c
    if p = -1 then -1 else specMultiForward full objs k (p + 1)

/-- Spec multi-needle backward iteration: `t+1` pick-nearest-then-retreat
steps from cursor `c`, the cursor retreating by 1 past each picked match;
`-1` as soon as every needle fails in a step. -/
def specMultiBackward (full : List Char) (objs : List (List Char)) :
    Nat → Int → Int
  | 0, c => stepBackward full objs c
  | k + 1, c =>
    let p := stepBackward full objs c
    if p = -1 then -1 else specMultiBackward full objs k (p - 1)

lemma multiFindLoop_succ (full : List Char) (objs : List (List Char))
    (ov : Bool) (n : Nat) (p : Int) :
    multiFindLoop full objs ov (n + 1) p =
      if stepForward full objs (p + 1) = -1 then -1
      else multiFindLoop full objs ov n (stepForward full objs (p + 1)) := by
  have hmap : (fun x => strfindSingle full x (some (p + 1)) 0 ov) =
      (fun x => pyFind full x (p + 1)) :=
    funext (fun x => strfindSingle_times_zero full x (p + 1) ov)
  simp only [multiFindLoop, hmap, stepForward]

lemma multiRfindLoop_succ (full : List Char) (objs : List (List Char))
    (ov : Bool) (n : Nat) (p : Int) :
    multiRfindLoop full objs ov (n + 1) p =
      if stepBackward full objs (p - 1) = -1 then -1
      else multiRfindLoop full objs ov n (stepBackward full objs (p - 1)) := by
  have hmap : (fun x => strfindSingle full x (some (p - 1)) (-1) ov) =
      (fun x => pyRfind full x (p - 1 + 1)) :=
    funext (fun x => strfindSingle_neg_one full x (p - 1) ov)
  simp only [multiRfindLoop, hmap, stepBackward]

lemma multiFindLoop_eq_specMultiForward (full : List Char)
    (objs : List (List Char)) (ov : Bool) :
    ∀ (t : Nat) (c : Int),
      multiFindLoop full objs ov (t + 1) (c - 1) = specMultiForward full objs t c := by
  intro t
  induction t with
  | zero =>
    intro c
    rw [multiFindLoop_succ]
    have hc : c - 1 + 1 = c := by ring
    rw [hc]
    simp only [specMultiForward]
    by_cases h : stepForward full objs c = -1 <;> simp [multiFindLoop, h]
  | succ k ih =>
    intro c
    rw [multiFindLoop_succ]
    have hc : c - 1 + 1 = c := by ring
    rw [hc]
    simp only [specMultiForward]
    by_cases h : stepForward full objs c = -1
    · simp [h]
    · simp only [h, if_false]
      have h2 := ih (stepForward full objs c + 1)
      have h3 : stepForward full objs c + 1 - 1 = stepForward full objs c := by ring
      rw [h3] at h2
      exact h2

lemma multiRfindLoop_eq_specMultiBackward (full : List Char)
    (objs : List (List Char)) (ov : Bool) :
    ∀ (t : Nat) (c : Int),
      multiRfindLoop full objs ov (t + 1) (c + 1) = specMultiBackward full objs t c := by
  intro t
  induction t with
  | zero =>
    intro c
    rw [multiRfindLoop_succ]
    have hc : c + 1 - 1 = c := by ring
    rw [hc]
    simp only [specMultiBackward]
    by_cases h : stepBackward full objs c = -1 <;> simp [multiRfindLoop, h]
  | succ k ih =>
    intro c
    rw [multiRfindLoop_succ]
    have hc : c + 1 - 1 = c := by ring
    rw [hc]
    simp only [specMultiBackward]
    by_cases h : stepBackward full objs c = -1
    · simp [h]
    · simp only [h, if_false]
      have h2 := ih (stepBackward full objs c - 1)
      have h3 : stepBackward full objs c - 1 + 1 = stepBackward full objs c := by ring
      rw [h3] at h2
      exact h2

lemma strfind_multi_eq_specMultiForward (full : List Char)
    (objs : List (List Char)) (s : Int) (t : Nat) (ov : Bool) :
    strfind full (.multi objs) (some s) (t : Int) ov =
      specMultiForward full objs t s := by
  have h0 : (0 : Int) ≤ (t : Int) := Int.ofNat_nonneg t
  have h1 : ((t : Int) + 1).toNat = t + 1 := by omega
  simp only [strfind, if_pos h0, h1]
  exact multiFindLoop_eq_specMultiForward full objs ov t s

lemma strfind_multi_eq_specMultiBackward (full : List Char)
    (objs : List (List Char)) (s : Int) (t : Nat) (ov : Bool) :
    strfind full (.multi objs) (some s) (-((t : Int) + 1)) ov =
      specMultiBackward full objs t s := by
  have h0 : ¬ (0 : Int) ≤ -((t : Int) + 1) := by omega
  have h1 : (-(-((t : Int) + 1))).toNat = t + 1 := by omega
  simp only [strfind, if_neg h0, h1]
  exact multiRfindLoop_eq_specMultiBackward full objs ov t s

/-!
Structural facts about match positions and the values the loops can return.
-/

lemma mem_matchPositions {full sub : List Char} {i : Nat} :
    i ∈ matchPositions full sub ↔
      i + sub.length ≤ full.length ∧ (full.drop i).take sub.length = sub := by
  unfold matchPositions
  rw [List.mem_filter, List.mem_range]
  constructor
  · rintro ⟨-, h2⟩
    simpa using h2
  · rintro ⟨h1, h2⟩
    refine ⟨by omega, ?_⟩
    simp [h1, h2]

lemma matchPositions_eq_nil {full sub : List Char} (h : full.length < sub.length) :
    matchPositions full sub = [] := by
  apply List.eq_nil_iff_forall_not_mem.mpr
  intro i hi
  rw [mem_matchPositions] at hi
  exact absurd hi.1 (by omega)

lemma mem_of_getLast?_eq {α : Type} {l : List α} {a : α} (h : l.getLast? = some a) :
    a ∈ l := by
  have hmem : a ∈ l.getLast? := by rw [Option.mem_def, h]
  obtain ⟨hne, rfl⟩ := List.mem_getLast?_eq_getLast hmem
  exact List.getLast_mem hne

lemma pyFind_mem {full sub : List Char} {s : Int} (h : pyFind full sub s ≠ -1) :
    ∃ i ∈ matchPositions full sub, pyFind full sub s = (i : Int) := by
  unfold pyFind at h ⊢
  cases hf : (matchPositions full sub).filter
      (fun i => decide (clampStart full.length s ≤ i)) with
  | nil => rw [hf] at h; exact absurd rfl h
  | cons i l =>
    have hmem : i ∈ (matchPositions full sub).filter
        (fun i => decide (clampStart full.length s ≤ i)) := by
      rw [hf]
      exact List.mem_cons_self i l
    exact ⟨i, List.mem_of_mem_filter hmem, rfl⟩

lemma pyRfind_mem {full sub : List Char} {e : Int} (h : pyRfind full sub e ≠ -1) :
    ∃ i ∈ matchPositions full sub, pyRfind full sub e = (i : Int) := by
  unfold pyRfind at h ⊢
  cases hf : ((matchPositions full sub).filter
      (fun i => decide (i + sub.length ≤ clampEnd full.length e))).getLast? with
  | none => rw [hf] at h; exact absurd rfl h
  | some i =>
    refine ⟨i, ?_, rfl⟩
    exact List.mem_of_mem_filter (mem_of_getLast?_eq hf)

lemma pyFind_eq_neg_one {full sub : List Char} (hm : matchPositions full sub = [])
    (s : Int) : pyFind full sub s = -1 := by
  simp [pyFind, hm]

lemma pyRfind_eq_neg_one {full sub : List Char} (hm : matchPositions full sub = [])
    (e : Int) : pyRfind full sub e = -1 := by
  simp [pyRfind, hm]

lemma findLoop_result (full sub : List Char) (off : Int) :
    ∀ (n : Nat) (p : Int),
      findLoop full sub off (n + 1) p = -1 ∨
        ∃ i ∈ matchPositions full sub, findLoop full sub off (n + 1) p = (i : Int) := by
  intro n
  induction n with
  | zero =>
    intro p
    by_cases h : pyFind full sub (p + off) = -1
    · left; simp [findLoop, h]
    · right
      obtain ⟨i, hi, hv⟩ := pyFind_mem h
      exact ⟨i, hi, by simp [findLoop, h, hv]⟩
  | succ k ih =>
    intro p
    by_cases h : pyFind full sub (p + off) = -1
    · left; simp [findLoop, h]
    · have hstep : findLoop full sub off (k + 1 + 1) p =
          findLoop full sub off (k + 1) (pyFind full sub (p + off)) := by
        simp [findLoop, h]
      rw [hstep]
      exact ih (pyFind full sub (p + off))

lemma rfindLoop_result (full sub : List Char) (off : Int) :
    ∀ (n : Nat) (p : Int),
      rfindLoop full sub off (n + 1) p = -1 ∨
        ∃ i ∈ matchPositions full sub, rfindLoop full sub off (n + 1) p = (i : Int) := by
  intro n
  induction n with
  | zero =>
    intro p
    by_cases h : pyRfind full sub (p - off) = -1
    · left; simp [rfindLoop, h]
    · right
      obtain ⟨i, hi, hv⟩ := pyRfind_mem h
      exact ⟨i, hi, by simp [rfindLoop, h, hv]⟩
  | succ k ih =>
    intro p
    by_cases h : pyRfind full sub (p - off) = -1
    · left; simp [rfindLoop, h]
    · have hstep : rfindLoop full sub off (k + 1 + 1) p =
          rfindLoop full sub off (k + 1) (pyRfind full sub (p - off)) := by
        simp [rfindLoop, h]
      rw [hstep]
      exact ih (pyRfind full sub (p - off))

lemma strfindSingle_result (full obj : List Char) (start : Option Int)
    (times : Int) (ov : Bool) :
    strfindSingle full obj start times ov = -1 ∨
      ∃ i ∈ matchPositions full obj,
        strfindSingle full obj start times ov = (i : Int) := by
  simp only [strfindSingle]
  by_cases h : 0 ≤ times
  · rw [if_pos h]
    obtain ⟨k, hk⟩ : ∃ k, (times + 1).toNat = k + 1 := ⟨times.toNat, by omega⟩
    rw [hk]
    exact findLoop_result full obj _ k _
  · rw [if_neg h]
    obtain ⟨k, hk⟩ : ∃ k, (-times).toNat = k + 1 := ⟨(-times).toNat - 1, by omega⟩
    rw [hk]
    exact rfindLoop_result full obj _ k _

lemma foldl_min_mem (xs : List Int) :
    ∀ x : Int, xs.foldl min x = x ∨ xs.foldl min x ∈ xs := by
  induction xs with
  | nil => intro x; left; rfl
  | cons y ys ih =>
    intro x
    rcases ih (min x y) with h | h
    · rcases min_choice x y with h2 | h2
      · left; simp only [List.foldl_cons]; rw [h, h2]
      · right
        simp only [List.foldl_cons]
        rw [h, h2]
        exact List.mem_cons_self y ys
    · right
      simp only [List.foldl_cons]
      exact List.mem_cons.mpr (Or.inr h)

lemma foldl_max_mem (xs : List Int) :
    ∀ x : Int, xs.foldl max x = x ∨ xs.foldl max x ∈ xs := by
  induction xs with
  | nil => intro x; left; rfl
  | cons y ys ih =>
    intro x
    rcases ih (max x y) with h | h
    · rcases max_choice x y with h2 | h2
      · left; simp only [List.foldl_cons]; rw [h, h2]
      · right
        simp only [List.foldl_cons]
        rw [h, h2]
        exact List.mem_cons_self y ys
    · right
      simp only [List.foldl_cons]
      exact List.mem_cons.mpr (Or.inr h)

lemma nonnegative_min_value_result (l : List Int) :
    nonnegative_min_value l = -1 ∨
      (nonnegative_min_value l ∈ l ∧ 0 ≤ nonnegative_min_value l) := by
  unfold nonnegative_min_value
  cases hf : l.filter (fun x => decide (0 ≤ x)) with
  | nil => left; rfl
  | cons x xs =>
    right
    have hmem : xs.foldl min x ∈ x :: xs := by
      rcases foldl_min_mem xs x with h | h
      · rw [h]; exact List.mem_cons_self x xs
      · exact List.mem_cons.mpr (Or.inr h)
    have hfil : xs.foldl min x ∈ l.filter (fun x => decide (0 ≤ x)) := by
      rw [hf]; exact hmem
    refine ⟨List.mem_of_mem_filter hfil, ?_⟩
    simpa using List.of_mem_filter hfil

lemma nonnegative_max_value_result (l : List Int) :
    nonnegative_max_value l = -1 ∨
      (nonnegative_max_value l ∈ l ∧ 0 ≤ nonnegative_max_value l) := by
  unfold nonnegative_max_value
  cases hf : l.filter (fun x => decide (0 ≤ x)) with
  | nil => left; rfl
  | cons x xs =>
    right
    have hmem : xs.foldl max x ∈ x :: xs := by
      rcases foldl_max_mem xs x with h | h
      · rw [h]; exact List.mem_cons_self x xs
      · exact List.mem_cons.mpr (Or.inr h)
    have hfil : xs.foldl max x ∈ l.filter (fun x => decide (0 ≤ x)) := by
      rw [hf]; exact hmem
    refine ⟨List.mem_of_mem_filter hfil, ?_⟩
    simpa using List.of_mem_filter hfil

lemma stepForward_result (full : List Char) (objs : List (List Char)) (c : Int) :
    stepForward full objs c = -1 ∨
      ∃ x ∈ objs, ∃ i ∈ matchPositions full x,
        stepForward full objs c = (i : Int) := by
  unfold stepForward
  rcases nonnegative_min_value_result (objs.map (fun x => pyFind full x c)) with
    h | ⟨hmem, hpos⟩
  · left; exact h
  · right
    obtain ⟨x, hx, hv⟩ := List.mem_map.mp hmem
    have hne : pyFind full x c ≠ -1 := by rw [hv]; omega
    obtain ⟨i, hi, he⟩ := pyFind_mem hne
    exact ⟨x, hx, i, hi, by rw [← hv, he]⟩

lemma stepBackward_result (full : List Char) (objs : List (List Char)) (c : Int) :
    stepBackward full objs c = -1 ∨
      ∃ x ∈ objs, ∃ i ∈ matchPositions full x,
        stepBackward full objs c = (i : Int) := by
  unfold stepBackward
  rcases nonnegative_max_value_result (objs.map (fun x => pyRfind full x (c + 1))) with
    h | ⟨hmem, hpos⟩
  · left; exact h
  · right
    obtain ⟨x, hx, hv⟩ := List.mem_map.mp hmem
    have hne : pyRfind full x (c + 1) ≠ -1 := by rw [hv]; omega
    obtain ⟨i, hi, he⟩ := pyRfind_mem hne
    exact ⟨x, hx, i, hi, by rw [← hv, he]⟩

lemma multiFindLoop_result (full : List Char) (objs : List (List Char)) (ov : Bool) :
    ∀ (n : Nat) (p : Int),
      multiFindLoop full objs ov (n + 1) p = -1 ∨
        ∃ x ∈ objs, ∃ i ∈ matchPositions full x,
          multiFindLoop full objs ov (n + 1) p = (i : Int) := by
  intro n
  induction n with
  | zero =>
    intro p
    rw [multiFindLoop_succ]
    rcases stepForward_result full objs (p + 1) with h | ⟨x, hx, i, hi, he⟩
    · left; simp [h]
    · right
      have hne : stepForward full objs (p + 1) ≠ -1 := by rw [he]; omega
      rw [if_neg hne]
      exact ⟨x, hx, i, hi, by simpa [multiFindLoop] using he⟩
  | succ k ih =>
    intro p
    rw [multiFindLoop_succ]
    by_cases h : stepForward full objs (p + 1) = -1
    · left; simp [h]
    · rw [if_neg h]
      exact ih (stepForward full objs (p + 1))

lemma multiRfindLoop_result (full : List Char) (objs : List (List Char)) (ov : Bool) :
    ∀ (n : Nat) (p : Int),
      multiRfindLoop full objs ov (n + 1) p = -1 ∨
        ∃ x ∈ objs, ∃ i ∈ matchPositions full x,
          multiRfindLoop full objs ov (n + 1) p = (i : Int) := by
  intro n
  induction n with
  | zero =>
    intro p
    rw [multiRfindLoop_succ]
    rcases stepBackward_result full objs (p - 1) with h | ⟨x, hx, i, hi, he⟩
    · left; simp [h]
    · right
      have hne : stepBackward full objs (p - 1) ≠ -1 := by rw [he]; omega
      rw [if_neg hne]
      exact ⟨x, hx, i, hi, by simpa [multiRfindLoop] using he⟩
  | succ k ih =>
    intro p
    rw [multiRfindLoop_succ]
    by_cases h : stepBackward full objs (p - 1) = -1
    · left; simp [h]
    · rw [if_neg h]
      exact ih (stepBackward full objs (p - 1))

lemma strfind_result (full : List Char) (obj : Needle) (start : Option Int)
    (times : Int) (ov : Bool) :
    strfind full obj start times ov = -1 ∨
      ∃ s ∈ needleStrings obj, ∃ i ∈ matchPositions full s,
        strfind full obj start times ov = (i : Int) := by
  match obj with
  | .single s =>
    rcases strfindSingle_result full s start times ov with h | ⟨i, hi, he⟩
    · left; exact h
    · right
      exact ⟨s, List.mem_cons_self s [], i, hi, he⟩
  | .multi objs =>
    simp only [strfind, needleStrings]
    by_cases h : 0 ≤ times
    · rw [if_pos h]
      obtain ⟨k, hk⟩ : ∃ k, (times + 1).toNat = k + 1 := ⟨times.toNat, by omega⟩
      rw [hk]
      exact multiFindLoop_result full objs ov k _
    · rw [if_neg h]
      obtain ⟨k, hk⟩ : ∃ k, (-times).toNat = k + 1 := ⟨(-times).toNat - 1, by omega⟩
      rw [hk]
      exact multiRfindLoop_result full objs ov k _

/-!
Facts used for the boundary claims (needle longer than the haystack) and for
the forward/backward symmetry claim.
-/

lemma findLoop_all_fail {full sub : List Char} (hm : matchPositions full sub = [])
    (off : Int) (n : Nat) (p : Int) : findLoop full sub off (n + 1) p = -1 := by
  simp [findLoop, pyFind_eq_neg_one hm]

lemma rfindLoop_all_fail {full sub : List Char} (hm : matchPositions full sub = [])
    (off : Int) (n : Nat) (p : Int) : rfindLoop full sub off (n + 1) p = -1 := by
  simp [rfindLoop, pyRfind_eq_neg_one hm]

lemma strfindSingle_long {full obj : List Char} (h : full.length < obj.length)
    (start : Option Int) (times : Int) (ov : Bool) :
    strfindSingle full obj start times ov = -1 := by
  have hm := matchPositions_eq_nil h
  simp only [strfindSingle]
  by_cases ht : 0 ≤ times
  · rw [if_pos ht]
    obtain ⟨k, hk⟩ : ∃ k, (times + 1).toNat = k + 1 := ⟨times.toNat, by omega⟩
    rw [hk]
    exact findLoop_all_fail hm _ k _
  · rw [if_neg ht]
    obtain ⟨k, hk⟩ : ∃ k, (-times).toNat = k + 1 := ⟨(-times).toNat - 1, by omega⟩
    rw [hk]
    exact rfindLoop_all_fail hm _ k _

lemma stepForward_all_fail {full : List Char} {objs : List (List Char)}
    (h : ∀ x ∈ objs, matchPositions full x = []) (c : Int) :
    stepForward full objs c = -1 := by
  unfold stepForward nonnegative_min_value
  have hnil : (objs.map (fun x => pyFind full x c)).filter
      (fun x => decide (0 ≤ x)) = [] := by
    apply List.eq_nil_iff_forall_not_mem.mpr
    intro a ha
    rw [List.mem_filter] at ha
    obtain ⟨hmem, hpos⟩ := ha
    obtain ⟨x, hx, hv⟩ := List.mem_map.mp hmem
    rw [pyFind_eq_neg_one (h x hx)] at hv
    rw [← hv] at hpos
    simp at hpos
  rw [hnil]

lemma stepBackward_all_fail {full : List Char} {objs : List (List Char)}
    (h : ∀ x ∈ objs, matchPositions full x = []) (c : Int) :
    stepBackward full objs c = -1 := by
  unfold stepBackward nonnegative_max_value
  have hnil : (objs.map (fun x => pyRfind full x (c + 1))).filter
      (fun x => decide (0 ≤ x)) = [] := by
    apply List.eq_nil_iff_forall_not_mem.mpr
    intro a ha
    rw [List.mem_filter] at ha
    obtain ⟨hmem, hpos⟩ := ha
    obtain ⟨x, hx, hv⟩ := List.mem_map.mp hmem
    rw [pyRfind_eq_neg_one (h x hx)] at hv
    rw [← hv] at hpos
    simp at hpos
  rw [hnil]

lemma strfind_multi_long {full : List Char} {objs : List (List Char)}
    (h : ∀ x ∈ objs, full.length < x.length)
    (start : Option Int) (times : Int) (ov : Bool) :
    strfind full (.multi objs) start times ov = -1 := by
  have hm : ∀ x ∈ objs, matchPositions full x = [] :=
    fun x hx => matchPositions_eq_nil (h x hx)
  simp only [strfind]
  by_cases ht : 0 ≤ times
  · rw [if_pos ht]
    obtain ⟨k, hk⟩ : ∃ k, (times + 1).toNat = k + 1 := ⟨times.toNat, by omega⟩
    rw [hk, multiFindLoop_succ, stepForward_all_fail hm]
    simp
  · rw [if_neg ht]
    obtain ⟨k, hk⟩ : ∃ k, (-times).toNat = k + 1 := ⟨(-times).toNat - 1, by omega⟩
    rw [hk, multiRfindLoop_succ, stepBackward_all_fail hm]
    simp

lemma matchPositions_sorted (full sub : List Char) :
    (matchPositions full sub).Sorted (· < ·) := by
  unfold matchPositions
  exact (List.sorted_lt_range _).filter _

lemma getLast?_eq_of_sorted :
    ∀ (l : List Nat) (p : Nat), l.Sorted (· < ·) → p ∈ l →
      (∀ x ∈ l, x ≤ p) → l.getLast? = some p := by
  intro l
  induction l with
  | nil => intro p _ hp _; cases hp
  | cons a as ih =>
    intro p hs hp hmax
    cases as with
    | nil =>
      have hpa : p = a := by simpa using hp
      simp [hpa]
    | cons b bs =>
      rw [List.getLast?_cons_cons]
      rw [List.sorted_cons] at hs
      obtain ⟨hrel, hs'⟩ := hs
      rcases List.mem_cons.mp hp with rfl | hp'
      · exfalso
        have hb : b ∈ b :: bs := List.mem_cons_self b bs
        have h1 : p < b := hrel b hb
        have h2 : b ≤ p := hmax b (List.mem_cons.mpr (Or.inr hb))
        omega
      · exact ih p hs' hp' (fun x hx => hmax x (List.mem_cons.mpr (Or.inr hx)))

lemma clampEnd_of_match {full sub : List Char} {p : Nat}
    (hp : p + sub.length ≤ full.length) :
    clampEnd full.length ((p : Int) + (sub.length : Int)) = p + sub.length := by
  unfold clampEnd
  rw [if_neg (by omega)]
  omega

lemma pyRfind_at_match {full sub : List Char} {p : Nat}
    (hp : p ∈ matchPositions full sub) :
    pyRfind full sub ((p : Int) + (sub.length : Int)) = (p : Int) := by
  have hple := (mem_matchPositions.mp hp).1
  have hce : clampEnd full.length ((p : Int) + (sub.length : Int)) = p + sub.length :=
    clampEnd_of_match hple
  unfold pyRfind
  have hpred : (fun i => decide (i + sub.length ≤
      clampEnd full.length ((p : Int) + (sub.length : Int)))) =
      (fun i => decide (i ≤ p)) := by
    funext i
    rw [hce]
    exact decide_eq_decide.mpr (by omega)
  rw [hpred]
  have hlast : ((matchPositions full sub).filter
      (fun i => decide (i ≤ p))).getLast? = some p := by
    apply getLast?_eq_of_sorted
    · exact (matchPositions_sorted full sub).filter _
    · rw [List.mem_filter]
      exact ⟨hp, by simp⟩
    · intro x hx
      simpa using List.of_mem_filter hx
  rw [hlast]

lemma strfindSingle_none_nonneg (full obj : List Char) (times : Int) (ov : Bool)
    (h : 0 ≤ times) :
    strfindSingle full obj none times ov = strfindSingle full obj (some 0) times ov := by
  simp only [strfindSingle]
  rw [if_neg (by omega : ¬ times < 0)]

lemma strfindSingle_none_neg (full obj : List Char) (times : Int) (ov : Bool)
    (h : times < 0) :
    strfindSingle full obj none times ov =
      strfindSingle full obj (some ((full.length : Int) - 1)) times ov := by
  simp only [strfindSingle]
  rw [if_pos h]

lemma matchPositions_empty_needle (full : List Char) :
    matchPositions full [] = List.range (full.length + 1) := by
  unfold matchPositions
  apply List.filter_eq_self.mpr
  intro a ha
  rw [List.mem_range] at ha
  simp
  omega

lemma pyFind_empty_needle (full : List Char) : pyFind full [] 0 = 0 := by
  unfold pyFind
  rw [matchPositions_empty_needle]
  have hcl : clampStart full.length 0 = 0 := by simp [clampStart]
  rw [hcl]
  have hfil : (List.range (full.length + 1)).filter (fun i => decide (0 ≤ i)) =
      List.range (full.length + 1) :=
    List.filter_eq_self.mpr (fun a _ => by simp)
  rw [hfil, List.range_succ_eq_map]
  rfl

lemma findLoop_empty_needle (full : List Char) :
    ∀ n : Nat, findLoop full [] 0 n 0 = 0 := by
  intro n
  induction n with
  | zero => rfl
  | succ k ih =>
    have h : pyFind full [] ((0 : Int) + 0) = 0 := by
      norm_num
      exact pyFind_empty_needle full
    simp only [findLoop, h]
    norm_num
    exact ih

/-!
Claim theorems.
-/

/-- C1: for every haystack, single needle, non-negative occurrence count `t`
and start offset, with `overlap = false`, `strfind` returns the result of
iterating `t + 1` forward-find steps, each beginning just past the prior
match advanced by the needle's length, returning `-1` as soon as a step
fails (this is `specForward` with advance = needle length); the default
start is 0; and `strfind "aabbaabb" "bb" (times = 1) = 6`. -/
theorem strfind_forward_single_nonoverlap (full obj : List Char) (t : Nat) (s : Int) :
    strfind full (.single obj) (some s) (t : Int) false =
        specForward full obj (obj.length : Int) t s ∧
    strfind full (.single obj) none (t : Int) false =
        specForward full obj (obj.length : Int) t 0 ∧
    strfind (chars "aabbaabb") (.single (chars "bb")) none 1 false = 6 := by
  refine ⟨?_, ?_, by decide⟩
  · show strfindSingle full obj (some s) (t : Int) false = _
    simpa using strfindSingle_eq_specForward full obj s t false
  · show strfindSingle full obj none (t : Int) false = _
    rw [strfindSingle_none_nonneg full obj _ false (Int.ofNat_nonneg t)]
    simpa using strfindSingle_eq_specForward full obj 0 t false

/-- C2: for every haystack, single needle and negative occurrence count
`-(t+1)`, `strfind` performs `t + 1` backward-find iterations, each starting
just before the prior match retreated by the needle's length, returning `-1`
as soon as a step fails (this is `specBackward`); the default start is
`len - 1`; any non-`-1` result is the start position of an actual match of
the needle; and `strfind "aabbaabb" "aa" (times = -1) = 4`. -/
theorem strfind_backward_single (full obj : List Char) (t : Nat) (s : Int) :
    strfind full (.single obj) (some s) (-((t : Int) + 1)) false =
        specBackward full obj (obj.length : Int) t s ∧
    strfind full (.single obj) none (-((t : Int) + 1)) false =
        specBackward full obj (obj.length : Int) t ((full.length : Int) - 1) ∧
    (strfind full (.single obj) (some s) (-((t : Int) + 1)) false ≠ -1 →
      ∃ i ∈ matchPositions full obj,
        strfind full (.single obj) (some s) (-((t : Int) + 1)) false = (i : Int)) ∧
    strfind (chars "aabbaabb") (.single (chars "aa")) none (-1) false = 4 := by
  refine ⟨?_, ?_, ?_, by decide⟩
  · show strfindSingle full obj (some s) (-((t : Int) + 1)) false = _
    simpa using strfindSingle_eq_specBackward full obj s t false
  · show strfindSingle full obj none (-((t : Int) + 1)) false = _
    rw [strfindSingle_none_neg full obj _ false (by omega)]
    simpa using strfindSingle_eq_specBackward full obj ((full.length : Int) - 1) t false
  · intro h
    rcases strfindSingle_result full obj (some s) (-((t : Int) + 1)) false with hc | hm
    · exact absurd hc h
    · exact hm

/-- C2 witness: the backward search on a concrete input produces an actual
match position. -/
theorem strfind_backward_single_witness :
    ∃ i ∈ matchPositions (chars "aabbaabb") (chars "aa"),
      strfind (chars "aabbaabb") (.single (chars "aa")) (some 7)
          (-(((0 : Nat) : Int) + 1)) false = (i : Int) :=
  (strfind_backward_single (chars "aabbaabb") (chars "aa") 0 7).2.2.1 (by decide)

/-- C3: for every collection of needles, forward search with occurrence
count `t` performs `t + 1` pick-nearest-then-advance steps (minimum
non-negative single-needle result over the needles, `-1` as soon as all
fail), backward search with count `-(t+1)` performs `t + 1` steps picking
the maximum non-negative result, and
`strfind "aabbaabb" ["aa", "bb"] (times = 2) = 4`. -/
theorem strfind_multi_needle (full : List Char) (objs : List (List Char))
    (t : Nat) (s : Int) (ov : Bool) :
    strfind full (.multi objs) (some s) (t : Int) ov =
        specMultiForward full objs t s ∧
    strfind full (.multi objs) (some s) (-((t : Int) + 1)) ov =
        specMultiBackward full objs t s ∧
    strfind (chars "aabbaabb") (.multi [chars "aa", chars "bb"]) none 2 false = 4 :=
  ⟨strfind_multi_eq_specMultiForward full objs s t ov,
   strfind_multi_eq_specMultiBackward full objs s t ov, by decide⟩

/-- C4 counterexample: the claim says every call with `overlap = false`
advances the cursor by the matched needle's length, but for a collection of
needles the cursor advances by 1, so successive counted matches may overlap:
on `"aaaa"` with collection `["aa"]`, `times = 1`, `overlap = false`, the
code returns 1 (the match at 1 overlaps the first match at 0), while the
single-needle call returns the non-overlapping position 2. -/
theorem strfind_overlap_collection_cex :
    strfind (chars "aaaa") (.multi [chars "aa"]) none 1 false = 1 ∧
    strfind (chars "aaaa") (.single (chars "aa")) none 1 false = 2 ∧
    (1 : Int) < 0 + (chars "aa").length := by
  refine ⟨by decide, by decide, by decide⟩

/-- C4 amended: for single-needle calls, `overlap = true` advances the
cursor by 1 past each counted match (matches may overlap) and
`overlap = false` advances by the needle's length (non-overlapping); for
collections of needles the cursor always advances by 1, so the overlap flag
has no effect there; `strfind "aaaa" "aa" (times = 1) = 2` and with
`overlap = true` the result is 1. -/
theorem strfind_overlap_semantics (full obj : List Char)
    (objs : List (List Char)) (t : Nat) (s : Int) :
    strfind full (.single obj) (some s) (t : Int) true =
        specForward full obj 1 t s ∧
    strfind full (.single obj) (some s) (t : Int) false =
        specForward full obj (obj.length : Int) t s ∧
    (∀ ov : Bool, strfind full (.multi objs) (some s) (t : Int) ov =
        specMultiForward full objs t s) ∧
    strfind (chars "aaaa") (.single (chars "aa")) none 1 false = 2 ∧
    strfind (chars "aaaa") (.single (chars "aa")) none 1 true = 1 := by
  refine ⟨?_, ?_, ?_, by decide, by decide⟩
  · show strfindSingle full obj (some s) (t : Int) true = _
    simpa using strfindSingle_eq_specForward full obj s t true
  · show strfindSingle full obj (some s) (t : Int) false = _
    simpa using strfindSingle_eq_specForward full obj s t false
  · intro ov
    exact strfind_multi_eq_specMultiForward full objs s t ov

/-- C5 counterexample: the claim says searching an empty haystack returns
`-1` for every needle, but the empty needle matches the empty haystack at
position 0. -/
theorem strfind_empty_haystack_cex :
    strfind ([] : List Char) (.single []) none 0 false = 0 := by decide

/-- C5 amended: a needle strictly longer than the haystack (for a
collection: every needle strictly longer) is never found, for every start,
occurrence count and overlap flag; consequently an empty haystack yields
`-1` for every non-empty needle (for a collection: every needle
non-empty). -/
theorem strfind_not_found_boundary :
    (∀ (full obj : List Char) (start : Option Int) (times : Int) (ov : Bool),
        full.length < obj.length → strfind full (.single obj) start times ov = -1) ∧
    (∀ (full : List Char) (objs : List (List Char)) (start : Option Int)
        (times : Int) (ov : Bool),
        (∀ x ∈ objs, full.length < x.length) →
          strfind full (.multi objs) start times ov = -1) ∧
    (∀ (obj : List Char) (start : Option Int) (times : Int) (ov : Bool),
        obj ≠ [] → strfind [] (.single obj) start times ov = -1) ∧
    (∀ (objs : List (List Char)) (start : Option Int) (times : Int) (ov : Bool),
        (∀ x ∈ objs, x ≠ []) → strfind [] (.multi objs) start times ov = -1) := by
  refine ⟨?_, ?_, ?_, ?_⟩
  · intro full obj start times ov h
    exact strfindSingle_long h start times ov
  · intro full objs start times ov h
    exact strfind_multi_long h start times ov
  · intro obj start times ov h
    have hlen : ([] : List Char).length < obj.length := by
      cases obj with
      | nil => exact absurd rfl h
      | cons a l => simp
    exact strfindSingle_long hlen start times ov
  · intro objs start times ov h
    apply strfind_multi_long _ start times ov
    intro x hx
    have hne := h x hx
    cases x with
    | nil => exact absurd rfl hne
    | cons a l => simp

/-- C5 witness: concrete instances of the boundary behaviour. -/
theorem strfind_not_found_boundary_witness :
    strfind (chars "ab") (.single (chars "abc")) none 0 false = -1 ∧
    strfind ([] : List Char) (.single (chars "a")) none (-1) true = -1 ∧
    strfind ([] : List Char) (.multi [chars "a", chars "bb"]) (some 3) 2 false = -1 :=
  ⟨strfind_not_found_boundary.1 (chars "ab") (chars "abc") none 0 false (by decide),
   strfind_not_found_boundary.2.2.1 (chars "a") none (-1) true (by decide),
   strfind_not_found_boundary.2.2.2 [chars "a", chars "bb"] (some 3) 2 false
     (by decide)⟩

/-- C6: for every haystack, needle argument, start, occurrence count and
overlap flag, `strfind` is a total function whose result is either the
sentinel `-1` or the start position of an actual occurrence of one of the
needles; there is no other outcome. -/
theorem strfind_sentinel_or_match (full : List Char) (obj : Needle)
    (start : Option Int) (times : Int) (ov : Bool) :
    strfind full obj start times ov = -1 ∨
      ∃ s ∈ needleStrings obj, ∃ i ∈ matchPositions full s,
        strfind full obj start times ov = (i : Int) :=
  strfind_result full obj start times ov

/-- C7: if the forward search (any non-negative occurrence count, any start,
any overlap flag) returns a position `p ≠ -1`, then a single backward step
(`times = -1`) started at `p + len(needle) - 1` returns the same `p`. -/
theorem strfind_forward_backward_symmetry (full obj : List Char)
    (start : Option Int) (t : Nat) (ov : Bool)
    (h : strfind full (.single obj) start (t : Int) ov ≠ -1) :
    strfind full (.single obj)
        (some (strfind full (.single obj) start (t : Int) ov +
          (obj.length : Int) - 1)) (-1) ov =
      strfind full (.single obj) start (t : Int) ov := by
  rcases strfindSingle_result full obj start (t : Int) ov with hc | ⟨i, hi, he⟩
  · exact absurd hc h
  · simp only [strfind]
    rw [he, strfindSingle_neg_one]
    have harg : (i : Int) + (obj.length : Int) - 1 + 1 =
        (i : Int) + (obj.length : Int) := by ring
    rw [harg]
    exact pyRfind_at_match hi

/-- C7 witness: forward then backward on a concrete input. -/
theorem strfind_forward_backward_symmetry_witness :
    strfind (chars "aabb") (.single (chars "bb"))
        (some (strfind (chars "aabb") (.single (chars "bb")) none ((0 : Nat) : Int) false +
          ((chars "bb").length : Int) - 1)) (-1) false =
      strfind (chars "aabb") (.single (chars "bb")) none ((0 : Nat) : Int) false :=
  strfind_forward_backward_symmetry (chars "aabb") (chars "bb") none 0 false (by decide)

/-- C8: `strfind` is deterministic: two calls on identical argument tuples
return identical results (the embedding is a pure function of its
arguments; the source mutates neither its arguments nor any global
state). -/
theorem strfind_deterministic (full full2 : List Char) (obj obj2 : Needle)
    (start start2 : Option Int) (times times2 : Int) (ov ov2 : Bool)
    (h1 : full = full2) (h2 : obj = obj2) (h3 : start = start2)
    (h4 : times = times2) (h5 : ov = ov2) :
    strfind full obj start times ov = strfind full2 obj2 start2 times2 ov2 := by
  subst h1; subst h2; subst h3; subst h4; subst h5; rfl

/-- C8 witness: determinism at a concrete argument tuple. -/
theorem strfind_deterministic_witness :
    strfind (chars "aabbaabb") (.single (chars "bb")) none 0 false =
      strfind (chars "aabbaabb") (.single (chars "bb")) none 0 false :=
  strfind_deterministic (chars "aabbaabb") (chars "aabbaabb")
    (.single (chars "bb")) (.single (chars "bb")) none none 0 0 false false
    rfl rfl rfl rfl rfl

/-- C9: with `overlap = false` and the default start, searching any haystack
(including the empty one) for the empty needle returns 0 for every
non-negative occurrence count; in particular `strfind "" "" = 0`. -/
theorem strfind_empty_needle_returns_zero (full : List Char) (t : Nat) :
    strfind full (.single []) none (t : Int) false = 0 ∧
    strfind ([] : List Char) (.single []) none 0 false = 0 := by
  refine ⟨?_, by decide⟩
  show strfindSingle full [] none (t : Int) false = 0
  rw [strfindSingle_none_nonneg full [] _ false (Int.ofNat_nonneg t)]
  simp only [strfindSingle, List.length_nil, Nat.cast_zero]
  rw [if_pos (Int.ofNat_nonneg t)]
  norm_num
  exact findLoop_empty_needle full (t + 1)

/-- C10: calling `strfind` with an empty collection of needles returns `-1`
for every haystack, start, occurrence count and overlap flag: every step's
candidate list is empty, so the non-negative min/max helper yields `-1`
immediately. -/
theorem strfind_empty_collection_not_found (full : List Char)
    (start : Option Int) (times : Int) (ov : Bool) :
    strfind full (.multi []) start times ov = -1 :=
  strfind_multi_long (fun x hx => absurd hx (List.not_mem_nil x)) start times ov
